import Mathlib

/-!
# Gold price dashboard: the `process` pipeline of `src/App.jsx`

A shallow embedding of `process` (lines 99-181 of `src/App.jsx`): the
normalisation of the backend rows into chart points, the sort by timestamp
and the summary record (`info`).

Modelling conventions.

* A JavaScript number is a `JSNum`: `NaN`, `-Infinity`, `+Infinity` or a
  finite value.  Finite values are exact rationals: IEEE-754 rounding and
  overflow, and the sign of zero, are not modelled.
* A field of a backend row holds a JSON scalar (`null`, a boolean, a number
  or a string) or is missing (`undefined`).  Arrays and objects as field
  values are outside the modelled input domain.
* `Date.parse` and `Date.prototype.toLocaleDateString` are host functions
  whose result on strings is implementation-defined; they are parameters
  (`Host`).
* `selectedPeriod` and `symbol` are React state read by `process`; they are
  parameters (`Env`).
-/

namespace GoldPrice

/-! ## JavaScript numbers -/

/-- A JavaScript number, with finite values taken as exact rationals. -/
inductive JSNum where
  | nan : JSNum
  | ninf : JSNum
  | fin (q : ℚ) : JSNum
  | pinf : JSNum
  deriving DecidableEq

namespace JSNum

/-- Sign of a number as an integer; `NaN` has sign `0`. -/
def sgn : JSNum → Int
  | nan => 0
  | ninf => -1
  | pinf => 1
  | fin q => if q < 0 then -1 else if q = 0 then 0 else 1

/-- Unary minus. -/
def neg : JSNum → JSNum
  | nan => nan
  | ninf => pinf
  | pinf => ninf
  | fin q => fin (-q)

/-- The `+` operator on numbers.  A finite sum is exact: no rounding and no
overflow to an infinity. -/
def add : JSNum → JSNum → JSNum
  | nan, _ => nan
  | _, nan => nan
  | fin a, fin b => fin (a + b)
  | pinf, ninf => nan
  | ninf, pinf => nan
  | pinf, _ => pinf
  | ninf, _ => ninf
  | fin _, pinf => pinf
  | fin _, ninf => ninf

/-- The binary `-` operator on numbers. -/
def sub (a b : JSNum) : JSNum := add a (neg b)

/-- The `*` operator on numbers.  A finite product is exact. -/
def mul : JSNum → JSNum → JSNum
  | nan, _ => nan
  | _, nan => nan
  | fin a, fin b => fin (a * b)
  | a, b =>
    if sgn a * sgn b = 0 then nan
    else if 0 < sgn a * sgn b then pinf else ninf

/-- The `/` operator on numbers (a zero divisor counts as `+0`).  A finite
quotient is exact: no rounding. -/
def div : JSNum → JSNum → JSNum
  | nan, _ => nan
  | _, nan => nan
  | fin a, fin b =>
    if b = 0 then (if a = 0 then nan else if 0 < a then pinf else ninf)
    else fin (a / b)
  | fin _, _ => fin 0
  | pinf, fin b => if b < 0 then ninf else pinf
  | ninf, fin b => if b < 0 then pinf else ninf
  | _, _ => nan

/-- The `<=` operator on numbers: false as soon as an operand is `NaN`. -/
def le : JSNum → JSNum → Bool
  | nan, _ => false
  | _, nan => false
  | ninf, _ => true
  | _, pinf => true
  | pinf, _ => false
  | _, ninf => false
  | fin a, fin b => decide (a ≤ b)

/-- The `<` operator on numbers: false as soon as an operand is `NaN`. -/
def lt : JSNum → JSNum → Bool
  | nan, _ => false
  | _, nan => false
  | pinf, _ => false
  | _, ninf => false
  | ninf, _ => true
  | _, pinf => true
  | fin a, fin b => decide (a < b)

/-- The `===` operator on two numbers: `NaN` is equal to nothing. -/
def strictEq : JSNum → JSNum → Bool
  | nan, _ => false
  | _, nan => false
  | a, b => decide (a = b)

/-- ToBoolean on a number: `0` and `NaN` are falsy. -/
def truthy : JSNum → Bool
  | nan => false
  | fin q => decide (q ≠ 0)
  | _ => true

/-- The expression `x || 0` on a number `x`. -/
def orZero (x : JSNum) : JSNum := if truthy x then x else fin 0

/-- Whether the number is finite (neither `NaN` nor an infinity). -/
def isFinite : JSNum → Bool
  | fin _ => true
  | _ => false

end JSNum

/-- The loop of `Math.max`: `NaN` as soon as an argument is `NaN`. -/
def mathMaxFrom (highest : JSNum) : List JSNum → JSNum
  | [] => highest
  | x :: xs =>
    if x = JSNum.nan then JSNum.nan
    else mathMaxFrom (if JSNum.lt highest x then x else highest) xs

/-- The call `Math.max(...xs)`; `-Infinity` on no argument. -/
def mathMax (xs : List JSNum) : JSNum := mathMaxFrom JSNum.ninf xs

/-- The loop of `Math.min`: `NaN` as soon as an argument is `NaN`. -/
def mathMinFrom (lowest : JSNum) : List JSNum → JSNum
  | [] => lowest
  | x :: xs =>
    if x = JSNum.nan then JSNum.nan
    else mathMinFrom (if JSNum.lt x lowest then x else lowest) xs

/-- The call `Math.min(...xs)`; `+Infinity` on no argument. -/
def mathMin (xs : List JSNum) : JSNum := mathMinFrom JSNum.pinf xs

/-! ## String to number (`Number(s)` on a string) -/

/-- The characters `StringToNumber` strips at both ends (white space and
line terminators). -/
def isStrWhiteSpace (c : Char) : Bool :=
  c.toNat ∈ [0x09, 0x0A, 0x0B, 0x0C, 0x0D, 0x20, 0xA0, 0x1680, 0x2000, 0x2001,
    0x2002, 0x2003, 0x2004, 0x2005, 0x2006, 0x2007, 0x2008, 0x2009, 0x200A,
    0x2028, 0x2029, 0x202F, 0x205F, 0x3000, 0xFEFF]

/-- Strip white space at both ends. -/
def trimWhiteSpace (cs : List Char) : List Char :=
  ((cs.dropWhile isStrWhiteSpace).reverse.dropWhile isStrWhiteSpace).reverse

/-- Value of a digit in the given base (2, 8, 10 or 16). -/
def digitValue (base : Nat) (c : Char) : Option Nat :=
  let v : Option Nat :=
    if '0' ≤ c ∧ c ≤ '9' then some (c.toNat - '0'.toNat)
    else if 'a' ≤ c ∧ c ≤ 'f' then some (c.toNat - 'a'.toNat + 10)
    else if 'A' ≤ c ∧ c ≤ 'F' then some (c.toNat - 'A'.toNat + 10)
    else none
  match v with
  | some d => if d < base then some d else none
  | none => none

/-- Value of a digit string read in the given base. -/
def digitsValue (base : Nat) : Nat → List Char → Option Nat
  | acc, [] => some acc
  | acc, c :: cs =>
    match digitValue base c with
    | some d => digitsValue base (acc * base + d) cs
    | none => none

/-- A non-empty digit string in the given base. -/
def nonEmptyDigits (base : Nat) (cs : List Char) : Option Nat :=
  if cs = [] then none else digitsValue base 0 cs

/-- The exponent part of a decimal literal: nothing, or `e`/`E`, an optional
sign and at least one digit. -/
def exponentPart : List Char → Option Int
  | [] => some 0
  | c :: cs =>
    if c = 'e' ∨ c = 'E' then
      match cs with
      | '+' :: ds => (nonEmptyDigits 10 ds).map Int.ofNat
      | '-' :: ds => (nonEmptyDigits 10 ds).map (fun n => - Int.ofNat n)
      | ds => (nonEmptyDigits 10 ds).map Int.ofNat
    else none

/-- The rational `m * 10 ^ e`. -/
def scale10 (m : Nat) (e : Int) : ℚ :=
  if 0 ≤ e then mkRat (m * 10 ^ e.toNat) 1 else mkRat m (10 ^ (-e).toNat)

/-- An unsigned decimal literal: digits, an optional fraction, an optional
exponent, with at least one digit before the exponent. -/
def unsignedDecimal (cs : List Char) : Option ℚ :=
  let ip := cs.takeWhile Char.isDigit
  let r1 := cs.dropWhile Char.isDigit
  let fp := match r1 with
    | '.' :: t => t.takeWhile Char.isDigit
    | _ => []
  let r2 := match r1 with
    | '.' :: t => t.dropWhile Char.isDigit
    | _ => r1
  if ip = [] ∧ fp = [] then none
  else
    match digitsValue 10 0 (ip ++ fp), exponentPart r2 with
    | some m, some e => some (scale10 m (e - fp.length))
    | _, _ => none

/-- An unsigned decimal literal or `Infinity`. -/
def unsignedNumeric (cs : List Char) : JSNum :=
  if cs = "Infinity".data then JSNum.pinf
  else match unsignedDecimal cs with
    | some q => JSNum.fin q
    | none => JSNum.nan

/-- StringToNumber: the number a string converts to, `NaN` when the string
is not a numeric literal; the empty or blank string converts to `0`.  The
value of a decimal literal is exact: no rounding, overflow or underflow. -/
def stringToNumber (s : String) : JSNum :=
  match trimWhiteSpace s.data with
  | [] => JSNum.fin 0
  | '0' :: 'x' :: ds => ((nonEmptyDigits 16 ds).map (fun n => JSNum.fin n)).getD JSNum.nan
  | '0' :: 'X' :: ds => ((nonEmptyDigits 16 ds).map (fun n => JSNum.fin n)).getD JSNum.nan
  | '0' :: 'o' :: ds => ((nonEmptyDigits 8 ds).map (fun n => JSNum.fin n)).getD JSNum.nan
  | '0' :: 'O' :: ds => ((nonEmptyDigits 8 ds).map (fun n => JSNum.fin n)).getD JSNum.nan
  | '0' :: 'b' :: ds => ((nonEmptyDigits 2 ds).map (fun n => JSNum.fin n)).getD JSNum.nan
  | '0' :: 'B' :: ds => ((nonEmptyDigits 2 ds).map (fun n => JSNum.fin n)).getD JSNum.nan
  | '+' :: cs => unsignedNumeric cs
  | '-' :: cs => JSNum.neg (unsignedNumeric cs)
  | cs => unsignedNumeric cs

/-! ## Values of a backend row -/

/-- A value a field of a backend row can hold: a JSON scalar, or
`undefined` when the field is missing. -/
inductive JSVal where
  | undefined : JSVal
  | null : JSVal
  | bool (b : Bool) : JSVal
  | num (x : JSNum) : JSVal
  | str (s : String) : JSVal
  deriving DecidableEq

namespace JSVal

/-- ToBoolean: the operand test of `||` and of `? :`. -/
def truthy : JSVal → Bool
  | undefined => false
  | null => false
  | bool b => b
  | num x => JSNum.truthy x
  | str s => decide (s ≠ "")

/-- The expression `a || b`. -/
def or (a b : JSVal) : JSVal := if truthy a then a else b

/-- Whether the value is `null` or `undefined`. -/
def isNullish : JSVal → Bool
  | undefined => true
  | null => true
  | _ => false

/-- The expression `a ?? b`. -/
def coalesce (a b : JSVal) : JSVal := if isNullish a then b else a

/-- The call `Number(v)`. -/
def toNumber : JSVal → JSNum
  | undefined => JSNum.nan
  | null => JSNum.fin 0
  | bool b => if b then JSNum.fin 1 else JSNum.fin 0
  | num x => x
  | str s => stringToNumber s

end JSVal

/-- A row of `json.data`: the own properties of a parsed JSON object. -/
abbrev RawRecord := List (String × JSVal)

/-- Property access `row.key` (or `row["key"]`): `undefined` when the row
has no such property. -/
def RawRecord.get (row : RawRecord) (key : String) : JSVal :=
  (List.lookup key row).getD JSVal.undefined

/-! ## Dates -/

/-- The host functions `process` calls on dates. -/
structure Host where
  /-- `Date.parse` on a string: a time value or `NaN`. -/
  dateParse : String → JSNum
  /-- `toLocaleDateString("en-IN", { day: "2-digit", month: "short", year })`
  on a date with the given time value, for the given `year` option. -/
  toLocaleDateString : JSNum → String → String

/-- TimeClip: `NaN` for a non-finite value or one beyond 8.64e15 ms in
magnitude, otherwise the value truncated to an integer. -/
def timeClip : JSNum → JSNum
  | JSNum.fin q =>
    if 8640000000000000 < |q| then JSNum.nan
    else JSNum.fin (Int.tdiv q.num q.den)
  | _ => JSNum.nan

/-- The time value of `new Date(v)`, i.e. `new Date(v).getTime()`: a string
is parsed, any other value is converted with ToNumber. -/
def dateTime (host : Host) : JSVal → JSNum
  | JSVal.str s => timeClip (host.dateParse s)
  | v => timeClip (JSVal.toNumber v)

/-! ## The chart points -/

/-- The React state `process` reads. -/
structure Env where
  selectedPeriod : String
  symbol : String

/-- An element of `chartData`. -/
structure CanonicalPoint where
  date : JSVal
  timestamp : JSNum
  open_ : JSNum
  high : JSNum
  low : JSNum
  close : JSNum
  volume : JSNum
  dividends : JSNum
  stockSplits : JSNum
  displayDate : String
  deriving DecidableEq

/-- The callback of `apiData.map` (lines 106-137). -/
def normalizeRow (host : Host) (env : Env) (row : RawRecord) : CanonicalPoint :=
  let dateStr :=
    (((row.get "timestamp").or (row.get "Date")).or (row.get "date")).or (row.get "index")
  let open_ := (row.get "open").coalesce ((row.get "Open").coalesce (JSVal.num (JSNum.fin 0)))
  let high := (row.get "high").coalesce ((row.get "High").coalesce (JSVal.num (JSNum.fin 0)))
  let low := (row.get "low").coalesce ((row.get "Low").coalesce (JSVal.num (JSNum.fin 0)))
  let close := (row.get "close").coalesce ((row.get "Close").coalesce (JSVal.num (JSNum.fin 0)))
  let volume :=
    (row.get "volume").coalesce ((row.get "Volume").coalesce (JSVal.num (JSNum.fin 0)))
  let dividends :=
    (row.get "dividends").coalesce ((row.get "Dividends").coalesce (JSVal.num (JSNum.fin 0)))
  let stockSplits :=
    (row.get "stockSplits").coalesce
      ((row.get "Stock Splits").coalesce (JSVal.num (JSNum.fin 0)))
  let dt := dateTime host dateStr
  { date := dateStr
    timestamp := dt
    open_ := open_.toNumber
    high := high.toNumber
    low := low.toNumber
    close := close.toNumber
    volume := volume.toNumber
    dividends := dividends.toNumber
    stockSplits := stockSplits.toNumber
    displayDate :=
      host.toLocaleDateString dt
        (if env.selectedPeriod = "1d" ∨ env.selectedPeriod = "5d" then "numeric"
         else "2-digit") }

/-! ## Sorting -/

/-- The sort order a comparator result stands for: negative, zero or
positive, a `NaN` result counting as zero (SortCompare). -/
def sortCompare (v : JSNum) : Int := JSNum.sgn v

/-- Insertion of `a` in front of the first element it does not sort after. -/
def orderedInsert {α : Type} (comparefn : α → α → JSNum) (a : α) : List α → List α
  | [] => [a]
  | b :: l =>
    if sortCompare (comparefn a b) ≤ 0 then a :: b :: l
    else b :: orderedInsert comparefn a l

/-- The call `xs.sort(comparefn)`.  ECMAScript requires the sort to be stable
and, for a consistent comparator, fixes the result; that result is what a
stable insertion sort computes.  For an inconsistent comparator (here: a
`NaN` timestamp) the order is implementation-defined and this model returns
one of the permitted orders. -/
def arraySort {α : Type} (comparefn : α → α → JSNum) : List α → List α
  | [] => []
  | a :: l => orderedInsert comparefn a (arraySort comparefn l)

/-- The comparator `(a, b) => a.timestamp - b.timestamp` (line 138). -/
def byTimestamp (a b : CanonicalPoint) : JSNum := JSNum.sub a.timestamp b.timestamp

/-- The constant `chartData` (lines 105-138): the rows mapped and sorted. -/
def chartDataOf (host : Host) (env : Env) (apiData : List RawRecord) : List CanonicalPoint :=
  arraySort byTimestamp (apiData.map (normalizeRow host env))

/-! ## The summary -/

/-- An entry of the table `symbols` (lines 41-48). -/
structure SymbolEntry where
  value : String
  label : String
  currency : String

/-- The table `symbols` (lines 41-48). -/
def symbols : List SymbolEntry :=
  [ { value := "GOLDBEES.NS", label := "Gold ETF (NSE, INR, per 0.01 gram)", currency := "INR" },
    { value := "GC=F", label := "COMEX Gold Futures (USD/oz)", currency := "USD" } ]

/-- The expression `s || d` on an optional string `s`. -/
def strOr (s : Option String) (d : String) : String :=
  match s with
  | some x => if x = "" then d else x
  | none => d

/-- Array indexing `xs[i]`: `undefined` outside the array. -/
def arrayAt {α : Type} (xs : List α) (i : Int) : Option α :=
  if i < 0 then none else xs[i.toNat]?

/-- The object `info` (lines 163-179). -/
structure Info where
  symbol : String
  instrument : String
  currency : String
  price : JSNum
  change : JSNum
  changePercent : JSNum
  periodHigh : JSNum
  periodLow : JSNum
  volume : JSNum
  avgVolume : JSNum
  totalDividends : JSNum
  samePriceDomain : Bool
  deriving DecidableEq

/-- The mean computed at lines 154-157 from the array `volumes`. -/
def avgVolumeOf (volumes : List JSNum) : JSNum :=
  if volumes.length > 0 then
    JSNum.div (volumes.foldl JSNum.add (JSNum.fin 0)) (JSNum.fin volumes.length)
  else JSNum.fin 0

/-- Lines 140-179: the summary computed from `chartData`. -/
def infoOf (env : Env) (chartData : List CanonicalPoint) : Info :=
  let latest := arrayAt chartData ((chartData.length : Int) - 1)
  let prev := (arrayAt chartData ((chartData.length : Int) - 2)).orElse (fun _ => latest)
  let price := (latest.map (·.close)).getD (JSNum.fin 0)
  let prevPrice := (prev.map (·.close)).getD price
  let change := JSNum.sub price prevPrice
  let changePct :=
    if JSNum.truthy prevPrice then JSNum.mul (JSNum.div change prevPrice) (JSNum.fin 100)
    else JSNum.fin 0
  let prices := chartData.map (·.close)
  let highs := mathMax prices
  let lows := mathMin prices
  let samePrice := JSNum.strictEq highs lows
  let volumes := chartData.map (fun d => JSNum.orZero d.volume)
  let avgVolume := avgVolumeOf volumes
  let currency := strOr ((symbols.find? (fun s => s.value = env.symbol)).map (·.currency)) "INR"
  { symbol := env.symbol
    instrument := strOr ((symbols.find? (fun s => s.value = env.symbol)).map (·.label)) "Gold"
    currency := currency
    price := price
    change := change
    changePercent := changePct
    periodHigh := highs
    periodLow := lows
    volume := JSNum.orZero ((latest.map (·.volume)).getD (JSNum.fin 0))
    avgVolume := avgVolume
    totalDividends :=
      chartData.foldl (fun sum r => JSNum.add sum (JSNum.orZero r.dividends)) (JSNum.fin 0)
    samePriceDomain := samePrice }

/-- The object `process` returns. -/
structure Processed where
  chartData : List CanonicalPoint
  info : Option Info

/-- The function `process` (lines 99-181); `none` stands for an absent
(`undefined` or `null`) argument. -/
def process (host : Host) (env : Env) (apiData : Option (List RawRecord)) : Processed :=
  match apiData with
  | none => { chartData := [], info := none }
  | some [] => { chartData := [], info := none }
  | some (row :: rows) =>
    { chartData := chartDataOf host env (row :: rows)
      info := some (infoOf env (chartDataOf host env (row :: rows))) }

/-! ## A host and a state for concrete evaluations -/

/-- A host whose `Date.parse` recognises no string and whose date format
shows the time value only.  It is used on rows whose time marker is a number
or is missing, where `Date.parse` is not called. -/
def plainHost : Host :=
  { dateParse := fun _ => JSNum.nan
    toLocaleDateString := fun t year =>
      match t with
      | JSNum.fin q => toString q.num ++ " " ++ year
      | _ => "Invalid Date" }

/-- The initial React state: period `1y`, symbol `GOLDBEES.NS`. -/
def initialEnv : Env := { selectedPeriod := "1y", symbol := "GOLDBEES.NS" }

/-! ## Predicates used in the statements -/

/-- A point whose timestamp is a finite number. -/
def FiniteTs (p : CanonicalPoint) : Prop := ∃ q, p.timestamp = JSNum.fin q

/-- The comparison `a.timestamp <= b.timestamp`. -/
def TsLe (a b : CanonicalPoint) : Prop := JSNum.le a.timestamp b.timestamp = true

/-! ## Concrete inputs -/

/-- Two rows, the later one first: `[{timestamp: 2000}, {timestamp: 1000}]`. -/
def rowsTwoDated : List RawRecord :=
  [[("timestamp", JSVal.num (JSNum.fin 2000))], [("timestamp", JSVal.num (JSNum.fin 1000))]]

/-- A dated row followed by a row without any time marker:
`[{timestamp: 1000}, {}]`. -/
def rowsOneUndated : List RawRecord :=
  [[("timestamp", JSVal.num (JSNum.fin 1000))], []]

/-- The point the summary takes as `previous`: the second-to-last point, or
the last point of a series of fewer than two points. -/
def previousPoint (l : List CanonicalPoint) : Option CanonicalPoint :=
  if 2 ≤ l.length then l[l.length - 2]? else l.getLast?

/-- One row whose close is a string that is not a number: `[{close: "abc"}]`. -/
def rowsCloseText : List RawRecord := [[("close", JSVal.str "abc")]]

/-- Two dated rows, the earlier one with a non-numeric close:
`[{timestamp: 1000, close: "abc"}, {timestamp: 2000, close: 5}]`. -/
def rowsPrevCloseText : List RawRecord :=
  [[("timestamp", JSVal.num (JSNum.fin 1000)), ("close", JSVal.str "abc")],
   [("timestamp", JSVal.num (JSNum.fin 2000)), ("close", JSVal.num (JSNum.fin 5))]]

/-- Two dated rows with closes 50 then 0:
`[{timestamp: 1000, close: 50}, {timestamp: 2000, close: 0}]`. -/
def rowsClose50Then0 : List RawRecord :=
  [[("timestamp", JSVal.num (JSNum.fin 1000)), ("close", JSVal.num (JSNum.fin 50))],
   [("timestamp", JSVal.num (JSNum.fin 2000)), ("close", JSVal.num (JSNum.fin 0))]]

/-- Two dated rows with closes 0 then 50:
`[{timestamp: 1000, close: 0}, {timestamp: 2000, close: 50}]`. -/
def rowsClose0Then50 : List RawRecord :=
  [[("timestamp", JSVal.num (JSNum.fin 1000)), ("close", JSVal.num (JSNum.fin 0))],
   [("timestamp", JSVal.num (JSNum.fin 2000)), ("close", JSVal.num (JSNum.fin 50))]]

/-- One row with close 200 and volume 10: `[{close: 200, volume: 10}]`. -/
def rowsSinglePoint : List RawRecord :=
  [[("close", JSVal.num (JSNum.fin 200)), ("volume", JSVal.num (JSNum.fin 10))]]

/-- Three rows all with close 120:
`[{timestamp: 1000, close: 120}, {timestamp: 2000, close: 120}, {timestamp: 3000, close: 120}]`. -/
def rowsFlat120 : List RawRecord :=
  [[("timestamp", JSVal.num (JSNum.fin 1000)), ("close", JSVal.num (JSNum.fin 120))],
   [("timestamp", JSVal.num (JSNum.fin 2000)), ("close", JSVal.num (JSNum.fin 120))],
   [("timestamp", JSVal.num (JSNum.fin 3000)), ("close", JSVal.num (JSNum.fin 120))]]

/-- The numeric fields of a point: the lower-case key and the capitalized
alias a row may name the field by, and the field of the point. -/
def numericFields : List (String × String × (CanonicalPoint → JSNum)) :=
  [ ("open", "Open", fun p => p.open_),
    ("high", "High", fun p => p.high),
    ("low", "Low", fun p => p.low),
    ("close", "Close", fun p => p.close),
    ("volume", "Volume", fun p => p.volume),
    ("dividends", "Dividends", fun p => p.dividends),
    ("stockSplits", "Stock Splits", fun p => p.stockSplits) ]

/-- The price and volume fields: open, high, low, close, volume. -/
def priceVolumeFields : List (String × String × (CanonicalPoint → JSNum)) :=
  numericFields.take 5

/-- The keys a row may give its time marker under. -/
def timeKeys : List String := ["timestamp", "Date", "date", "index"]

/-- The row names a field by exactly one of its two keys (or by neither, when
`v` is `undefined`) and holds `v` under it. -/
def NamesField (row : RawRecord) (lo hi : String) (v : JSVal) : Prop :=
  (row.get lo = v ∧ row.get hi = JSVal.undefined) ∨
    (row.get lo = JSVal.undefined ∧ row.get hi = v)

instance (row : RawRecord) (lo hi : String) (v : JSVal) : Decidable (NamesField row lo hi v) :=
  inferInstanceAs (Decidable (_ ∨ _))

/-- The row `{Close: 100, Open: 95}`. -/
def rowCapitalized : RawRecord :=
  [("Close", JSVal.num (JSNum.fin 100)), ("Open", JSVal.num (JSNum.fin 95))]

/-- The row `{close: 100, open: 95}`. -/
def rowLowerCase : RawRecord :=
  [("close", JSVal.num (JSNum.fin 100)), ("open", JSVal.num (JSNum.fin 95))]

/-- The values of `rowCapitalized` and `rowLowerCase` by lower-case key. -/
def valsCloseOpen (key : String) : JSVal :=
  if key = "close" then JSVal.num (JSNum.fin 100)
  else if key = "open" then JSVal.num (JSNum.fin 95)
  else JSVal.undefined

/-- The row `{open: "abc", High: "n/a", low: "abc", Close: "--", volume: "abc"}`. -/
def rowAllText : RawRecord :=
  [("open", JSVal.str "abc"), ("High", JSVal.str "n/a"), ("low", JSVal.str "abc"),
   ("Close", JSVal.str "--"), ("volume", JSVal.str "abc")]

/-- Two dated rows, the later one with a non-numeric volume:
`[{timestamp: 1, volume: 4}, {timestamp: 2, volume: "abc"}]`. -/
def rowsVolumeText : List RawRecord :=
  [[("timestamp", JSVal.num (JSNum.fin 1)), ("volume", JSVal.num (JSNum.fin 4))],
   [("timestamp", JSVal.num (JSNum.fin 2)), ("volume", JSVal.str "abc")]]

/-- One dated row without a volume: `[{timestamp: 1}]`. -/
def rowsNoVolume : List RawRecord := [[("timestamp", JSVal.num (JSNum.fin 1))]]

/-- Four dated rows with dividends 0, 1.5, 0 and 2. -/
def rowsDividends : List RawRecord :=
  [[("timestamp", JSVal.num (JSNum.fin 1000)), ("dividends", JSVal.num (JSNum.fin 0))],
   [("timestamp", JSVal.num (JSNum.fin 2000)), ("dividends", JSVal.num (JSNum.fin (3 / 2)))],
   [("timestamp", JSVal.num (JSNum.fin 3000)), ("dividends", JSVal.num (JSNum.fin 0))],
   [("timestamp", JSVal.num (JSNum.fin 4000)), ("dividends", JSVal.num (JSNum.fin 2))]]

/-- One row whose dividends is a string that is not a number:
`[{dividends: "abc"}]`. -/
def rowsDividendsText : List RawRecord := [[("dividends", JSVal.str "abc")]]

/-- The order `a.timestamp <= b.timestamp` between points of different
timestamps. -/
def TsBefore (a b : CanonicalPoint) : Prop := TsLe a b ∧ a.timestamp ≠ b.timestamp

/-- The rows of `rowsTwoDated` in the other order:
`[{timestamp: 1000}, {timestamp: 2000}]`. -/
def rowsTwoDatedSwapped : List RawRecord :=
  [[("timestamp", JSVal.num (JSNum.fin 1000))], [("timestamp", JSVal.num (JSNum.fin 2000))]]

/-! ## The sort -/

theorem orderedInsert_perm {α : Type} (f : α → α → JSNum) (a : α) (l : List α) :
    (orderedInsert f a l).Perm (a :: l) := by
  induction l with
  | nil => exact List.Perm.refl _
  | cons b l ih =>
    unfold orderedInsert
    split
    · exact List.Perm.refl _
    · exact ((List.Perm.cons b ih).trans (List.Perm.swap a b l))

theorem arraySort_perm {α : Type} (f : α → α → JSNum) (l : List α) :
    (arraySort f l).Perm l := by
  induction l with
  | nil => exact List.Perm.refl _
  | cons a l ih =>
    unfold arraySort
    exact (orderedInsert_perm f a _).trans (List.Perm.cons a ih)

theorem mem_orderedInsert {α : Type} (f : α → α → JSNum) (a x : α) (l : List α) :
    x ∈ orderedInsert f a l ↔ x = a ∨ x ∈ l := by
  rw [(orderedInsert_perm f a l).mem_iff, List.mem_cons]

theorem sortCompare_sub_fin (a b : ℚ) :
    sortCompare (JSNum.sub (JSNum.fin a) (JSNum.fin b)) ≤ 0 ↔ a ≤ b := by
  simp only [sortCompare, JSNum.sub, JSNum.neg, JSNum.add, JSNum.sgn]
  split_ifs with h1 h2
  · constructor
    · intro _; linarith
    · intro _; decide
  · constructor
    · intro _; linarith
    · intro _; decide
  · constructor
    · intro h; exact absurd h (by decide)
    · intro h
      exfalso
      rcases lt_trichotomy (a + -b) 0 with h3 | h3 | h3
      · exact h1 h3
      · exact h2 h3
      · linarith

theorem timeClip_nan_or_fin (x : JSNum) :
    timeClip x = JSNum.nan ∨ ∃ q, timeClip x = JSNum.fin q := by
  cases x with
  | fin q =>
    simp only [timeClip]
    split_ifs
    · exact Or.inl rfl
    · exact Or.inr ⟨_, rfl⟩
  | nan => exact Or.inl rfl
  | ninf => exact Or.inl rfl
  | pinf => exact Or.inl rfl

theorem timestamp_nan_or_fin (host : Host) (env : Env) (row : RawRecord) :
    (normalizeRow host env row).timestamp = JSNum.nan ∨
      ∃ q, (normalizeRow host env row).timestamp = JSNum.fin q := by
  simp only [normalizeRow, dateTime]
  split <;> exact timeClip_nan_or_fin _

theorem tsLe_of_compare {a b : CanonicalPoint} (ha : FiniteTs a) (hb : FiniteTs b)
    (h : sortCompare (byTimestamp a b) ≤ 0) : TsLe a b := by
  obtain ⟨x, hx⟩ := ha
  obtain ⟨y, hy⟩ := hb
  unfold byTimestamp at h
  rw [hx, hy, sortCompare_sub_fin] at h
  simp [TsLe, hx, hy, JSNum.le, h]

theorem tsLe_of_not_compare {a b : CanonicalPoint} (ha : FiniteTs a) (hb : FiniteTs b)
    (h : ¬ sortCompare (byTimestamp a b) ≤ 0) : TsLe b a := by
  obtain ⟨x, hx⟩ := ha
  obtain ⟨y, hy⟩ := hb
  unfold byTimestamp at h
  rw [hx, hy, sortCompare_sub_fin] at h
  simp [TsLe, hx, hy, JSNum.le, le_of_lt (lt_of_not_ge h)]

theorem tsLe_trans {a b c : CanonicalPoint} (ha : FiniteTs a) (hb : FiniteTs b)
    (hc : FiniteTs c) (h1 : TsLe a b) (h2 : TsLe b c) : TsLe a c := by
  obtain ⟨x, hx⟩ := ha
  obtain ⟨y, hy⟩ := hb
  obtain ⟨z, hz⟩ := hc
  simp only [TsLe, hx, hy, hz, JSNum.le, decide_eq_true_eq] at *
  exact le_trans h1 h2

theorem orderedInsert_sorted (a : CanonicalPoint) (l : List CanonicalPoint)
    (ha : FiniteTs a) (hl : ∀ b ∈ l, FiniteTs b) (hs : l.Pairwise TsLe) :
    (orderedInsert byTimestamp a l).Pairwise TsLe := by
  induction l with
  | nil => simp [orderedInsert]
  | cons b l ih =>
    have hb : FiniteTs b := hl b (List.mem_cons_self _ _)
    have hl2 : ∀ c ∈ l, FiniteTs c := fun c hc => hl c (List.mem_cons_of_mem _ hc)
    rw [List.pairwise_cons] at hs
    unfold orderedInsert
    split
    · rename_i h
      have hab : TsLe a b := tsLe_of_compare ha hb h
      rw [List.pairwise_cons]
      refine ⟨?_, List.pairwise_cons.mpr hs⟩
      intro c hc
      rcases List.mem_cons.mp hc with rfl | hc
      · exact hab
      · exact tsLe_trans ha hb (hl2 c hc) hab (hs.1 c hc)
    · rename_i h
      have hba : TsLe b a := tsLe_of_not_compare ha hb h
      rw [List.pairwise_cons]
      refine ⟨?_, ih hl2 hs.2⟩
      intro c hc
      rcases (mem_orderedInsert _ _ _ _).mp hc with rfl | hc
      · exact hba
      · exact hs.1 c hc

theorem arraySort_sorted (l : List CanonicalPoint) (hl : ∀ b ∈ l, FiniteTs b) :
    (arraySort byTimestamp l).Pairwise TsLe := by
  induction l with
  | nil => simp [arraySort]
  | cons a l ih =>
    have hl2 : ∀ c ∈ l, FiniteTs c := fun c hc => hl c (List.mem_cons_of_mem _ hc)
    unfold arraySort
    refine orderedInsert_sorted a _ (hl a (List.mem_cons_self _ _)) ?_ (ih hl2)
    intro b hb
    exact hl2 b ((arraySort_perm _ l).mem_iff.mp hb)

theorem process_chartData (host : Host) (env : Env) (rows : List RawRecord) :
    (process host env (some rows)).chartData = chartDataOf host env rows := by
  cases rows with
  | nil => rfl
  | cons r rs => rfl

theorem chartDataOf_perm (host : Host) (env : Env) (rows : List RawRecord) :
    (chartDataOf host env rows).Perm (rows.map (normalizeRow host env)) :=
  arraySort_perm _ _

theorem chartDataOf_length (host : Host) (env : Env) (rows : List RawRecord) :
    (chartDataOf host env rows).length = rows.length := by
  rw [(chartDataOf_perm host env rows).length_eq, List.length_map]

/-- Whatever order a sort leaves the points in, a series of two or more
points one of which has a `NaN` timestamp has an adjacent pair that fails
`<=`. -/
theorem adjacent_fails_of_nan_timestamp (l : List CanonicalPoint) (k : Nat)
    (hk : k < l.length) (h2 : 2 ≤ l.length) (hnan : l[k].timestamp = JSNum.nan) :
    ∃ i, ∃ hi : i + 1 < l.length, JSNum.le l[i].timestamp l[i + 1].timestamp = false := by
  by_cases hlast : k + 1 < l.length
  · refine ⟨k, hlast, ?_⟩
    rw [hnan]
    generalize l[k + 1].timestamp = t
    cases t <;> rfl
  · obtain ⟨j, rfl⟩ : ∃ j, k = j + 1 := ⟨k - 1, by omega⟩
    refine ⟨j, hk, ?_⟩
    rw [hnan]
    generalize l[j].timestamp = t
    cases t <;> rfl

/-! ## C1: order of the series -/

/-- C1 (as amended): when every row has a valid (non-`NaN`) timestamp, the
series `process` returns is non-decreasing by timestamp: each point's
timestamp is `<=` the next point's. -/
theorem chartData_sorted_of_valid_timestamps (host : Host) (env : Env)
    (rows : List RawRecord)
    (hvalid : ∀ r ∈ rows, (normalizeRow host env r).timestamp ≠ JSNum.nan)
    (i : Nat) (hi : i + 1 < (process host env (some rows)).chartData.length) :
    JSNum.le ((process host env (some rows)).chartData[i]).timestamp
      ((process host env (some rows)).chartData[i + 1]).timestamp = true := by
  have hfin : ∀ p ∈ rows.map (normalizeRow host env), FiniteTs p := by
    intro p hp
    obtain ⟨r, hr, rfl⟩ := List.mem_map.mp hp
    rcases timestamp_nan_or_fin host env r with h | h
    · exact absurd h (hvalid r hr)
    · exact h
  have hs : (process host env (some rows)).chartData.Pairwise TsLe := by
    rw [process_chartData]
    exact arraySort_sorted _ hfin
  exact List.pairwise_iff_getElem.mp hs i (i + 1) (by omega) hi (by omega)

/-- C1, witness: the rows `[{timestamp: 2000}, {timestamp: 1000}]` have valid
timestamps and come out in the order 1000, 2000. -/
theorem chartData_sorted_witness :
    (process plainHost initialEnv (some rowsTwoDated)).chartData.map (·.timestamp)
        = [JSNum.fin 1000, JSNum.fin 2000] ∧
      ∃ hi : 0 + 1 < (process plainHost initialEnv (some rowsTwoDated)).chartData.length,
        JSNum.le ((process plainHost initialEnv (some rowsTwoDated)).chartData[0]).timestamp
          ((process plainHost initialEnv (some rowsTwoDated)).chartData[0 + 1]).timestamp
          = true :=
  ⟨by decide!, by decide!,
    chartData_sorted_of_valid_timestamps plainHost initialEnv rowsTwoDated (by decide!) 0
      (by decide!)⟩

/-- C1, counterexample: on `[{timestamp: 1000}, {}]` the second point has a
`NaN` timestamp and the adjacent pair of the output fails `<=`. -/
theorem chartData_unsorted_with_invalid_date :
    ∃ hi : 0 + 1 < (process plainHost initialEnv (some rowsOneUndated)).chartData.length,
      JSNum.le ((process plainHost initialEnv (some rowsOneUndated)).chartData[0]).timestamp
        ((process plainHost initialEnv (some rowsOneUndated)).chartData[0 + 1]).timestamp
        = false :=
  ⟨by decide!, by decide!⟩

/-! ## C5: empty input -/

/-- C5: on an absent or empty input `process` returns an empty series and no
summary; on a non-empty input it returns a non-empty series and a summary;
so the summary is absent exactly when the input is absent or empty. -/
theorem process_empty_iff (host : Host) (env : Env) (apiData : Option (List RawRecord)) :
    ((apiData = none ∨ apiData = some []) →
        (process host env apiData).chartData = [] ∧ (process host env apiData).info = none) ∧
      (∀ rows, apiData = some rows → rows ≠ [] →
        (process host env apiData).chartData ≠ [] ∧
          (process host env apiData).info.isSome = true) ∧
      ((process host env apiData).info = none ↔ (apiData = none ∨ apiData = some [])) := by
  have hne : ∀ (r : RawRecord) (rs : List RawRecord),
      (process host env (some (r :: rs))).chartData ≠ [] := by
    intro r rs h
    have hlen := chartDataOf_length host env (r :: rs)
    rw [← process_chartData, h] at hlen
    simp at hlen
  refine ⟨?_, ?_, ?_⟩
  · rintro (rfl | rfl) <;> exact ⟨rfl, rfl⟩
  · rintro rows rfl hrows
    cases rows with
    | nil => exact absurd rfl hrows
    | cons r rs => exact ⟨hne r rs, rfl⟩
  · cases apiData with
    | none => simp [process]
    | some rows =>
      cases rows with
      | nil => simp [process]
      | cons r rs => simp [process]

/-! ## C10: one point per row -/

/-- C10: the series `process` returns has as many points as the input has
rows, and is a permutation of the rows converted one by one. -/
theorem chartData_perm_map (host : Host) (env : Env) (rows : List RawRecord) :
    (process host env (some rows)).chartData.length = rows.length ∧
      (process host env (some rows)).chartData.Perm (rows.map (normalizeRow host env)) := by
  rw [process_chartData]
  exact ⟨chartDataOf_length host env rows, chartDataOf_perm host env rows⟩

/-! ## The latest and the previous point -/

theorem arrayAt_last {α : Type} (l : List α) :
    arrayAt l ((l.length : Int) - 1) = l.getLast? := by
  cases l with
  | nil => rfl
  | cons a t =>
    have h1 : ¬ (((a :: t).length : Int) - 1 < 0) := by
      simp only [List.length_cons, Nat.cast_add, Nat.cast_one]; omega
    have h2 : (((a :: t).length : Int) - 1).toNat = (a :: t).length - 1 := by
      simp only [List.length_cons, Nat.cast_add, Nat.cast_one]; omega
    rw [arrayAt, if_neg h1, h2, List.getLast?_eq_getElem?]

theorem arrayAt_prev_of_two_le {α : Type} (l : List α) (h : 2 ≤ l.length) :
    arrayAt l ((l.length : Int) - 2) = l[l.length - 2]? := by
  have h1 : ¬ ((l.length : Int) - 2 < 0) := by omega
  have h2 : ((l.length : Int) - 2).toNat = l.length - 2 := by omega
  rw [arrayAt, if_neg h1, h2]

theorem arrayAt_prev_of_lt_two {α : Type} (l : List α) (h : l.length < 2) :
    arrayAt l ((l.length : Int) - 2) = none := by
  have h1 : (l.length : Int) - 2 < 0 := by omega
  rw [arrayAt, if_pos h1]

theorem prev_eq_previousPoint (l : List CanonicalPoint) :
    (arrayAt l ((l.length : Int) - 2)).orElse (fun _ => arrayAt l ((l.length : Int) - 1))
      = previousPoint l := by
  unfold previousPoint
  split
  · rename_i h
    rw [arrayAt_prev_of_two_le l h]
    have hlt : l.length - 2 < l.length := by omega
    rw [List.getElem?_eq_getElem hlt]
    rfl
  · rename_i h
    rw [arrayAt_prev_of_lt_two l (by omega), arrayAt_last]
    rfl

theorem getLast?_isSome_of_ne_nil {α : Type} (l : List α) (h : l ≠ []) :
    ∃ a, l.getLast? = some a := by
  cases l with
  | nil => exact absurd rfl h
  | cons a t => exact ⟨_, List.getLast?_eq_getLast _ (List.cons_ne_nil a t)⟩

theorem previousPoint_isSome_of_ne_nil (l : List CanonicalPoint) (h : l ≠ []) :
    ∃ p, previousPoint l = some p := by
  unfold previousPoint
  split
  · rename_i h2
    exact ⟨l[l.length - 2], List.getElem?_eq_getElem (by omega)⟩
  · exact getLast?_isSome_of_ne_nil l h

theorem infoOf_price (env : Env) (l : List CanonicalPoint) (latest : CanonicalPoint)
    (h : l.getLast? = some latest) : (infoOf env l).price = latest.close := by
  simp only [infoOf, arrayAt_last, h, Option.map_some', Option.getD_some]

theorem infoOf_change (env : Env) (l : List CanonicalPoint) (latest prev : CanonicalPoint)
    (h : l.getLast? = some latest) (hp : previousPoint l = some prev) :
    (infoOf env l).change = JSNum.sub latest.close prev.close := by
  simp only [infoOf]
  rw [prev_eq_previousPoint, hp, arrayAt_last, h]
  rfl

theorem infoOf_changePercent (env : Env) (l : List CanonicalPoint) (prev : CanonicalPoint)
    (hp : previousPoint l = some prev) :
    (infoOf env l).changePercent =
      if JSNum.truthy prev.close then
        JSNum.mul (JSNum.div (infoOf env l).change prev.close) (JSNum.fin 100)
      else JSNum.fin 0 := by
  simp only [infoOf]
  rw [prev_eq_previousPoint, hp]
  rfl

theorem JSNum.sub_self_of_isFinite (x : JSNum) (h : JSNum.isFinite x = true) :
    JSNum.sub x x = JSNum.fin 0 := by
  cases x with
  | fin q => simp [JSNum.sub, JSNum.neg, JSNum.add]
  | nan => simp [JSNum.isFinite] at h
  | ninf => simp [JSNum.isFinite] at h
  | pinf => simp [JSNum.isFinite] at h

theorem JSNum.sub_self_of_not_isFinite (x : JSNum) (h : JSNum.isFinite x = false) :
    JSNum.sub x x = JSNum.nan := by
  cases x with
  | fin q => simp [JSNum.isFinite] at h
  | nan => rfl
  | ninf => rfl
  | pinf => rfl

theorem JSNum.truthy_iff (x : JSNum) :
    JSNum.truthy x = true ↔ x ≠ JSNum.fin 0 ∧ x ≠ JSNum.nan := by
  cases x with
  | fin q => simp [JSNum.truthy]
  | nan => simp [JSNum.truthy]
  | ninf => simp [JSNum.truthy]
  | pinf => simp [JSNum.truthy]

theorem process_nonempty (host : Host) (env : Env) (rows : List RawRecord) (h : rows ≠ []) :
    (process host env (some rows)).chartData ≠ [] ∧
      (process host env (some rows)).info =
        some (infoOf env (process host env (some rows)).chartData) := by
  cases rows with
  | nil => exact absurd rfl h
  | cons r rs =>
    refine ⟨?_, rfl⟩
    intro hnil
    have hlen := chartDataOf_length host env (r :: rs)
    rw [← process_chartData, hnil] at hlen
    simp at hlen

/-! ## C2: price and change -/

/-- C2 (as amended): for a non-empty input, `price` is the close of the last
point of the sorted series; with two or more points `change` is `price` minus
the close of the second-to-last point; with exactly one point `change` is 0
when the close is a finite number and `NaN` otherwise. -/
theorem price_and_change (host : Host) (env : Env) (rows : List RawRecord)
    (hrows : rows ≠ []) :
    ∃ info latest,
      (process host env (some rows)).info = some info ∧
      (process host env (some rows)).chartData.getLast? = some latest ∧
      info.price = latest.close ∧
      (2 ≤ (process host env (some rows)).chartData.length →
        ∃ prev,
          (process host env (some rows)).chartData[
            (process host env (some rows)).chartData.length - 2]? = some prev ∧
          info.change = JSNum.sub info.price prev.close) ∧
      ((process host env (some rows)).chartData.length = 1 →
        JSNum.isFinite latest.close = true → info.change = JSNum.fin 0) ∧
      ((process host env (some rows)).chartData.length = 1 →
        JSNum.isFinite latest.close = false → info.change = JSNum.nan) := by
  obtain ⟨hne, hinfo⟩ := process_nonempty host env rows hrows
  obtain ⟨latest, hlast⟩ := getLast?_isSome_of_ne_nil _ hne
  refine ⟨_, latest, hinfo, hlast, infoOf_price env _ latest hlast, ?_, ?_, ?_⟩
  · intro h2
    have hp : previousPoint (process host env (some rows)).chartData =
        (process host env (some rows)).chartData[
          (process host env (some rows)).chartData.length - 2]? := by
      rw [previousPoint, if_pos h2]
    refine ⟨(process host env (some rows)).chartData[
      (process host env (some rows)).chartData.length - 2], List.getElem?_eq_getElem _, ?_⟩
    rw [infoOf_price env _ latest hlast]
    exact infoOf_change env _ latest _ hlast (hp.trans (List.getElem?_eq_getElem _))
  · intro h1 hfin
    have hp : previousPoint (process host env (some rows)).chartData = some latest := by
      rw [previousPoint, if_neg (by omega), hlast]
    rw [infoOf_change env _ latest latest hlast hp]
    exact JSNum.sub_self_of_isFinite _ hfin
  · intro h1 hfin
    have hp : previousPoint (process host env (some rows)).chartData = some latest := by
      rw [previousPoint, if_neg (by omega), hlast]
    rw [infoOf_change env _ latest latest hlast hp]
    exact JSNum.sub_self_of_not_isFinite _ hfin

/-- C2, witness: the single row `{close: 200, volume: 10}` gives price 200 and
change 0. -/
theorem price_and_change_witness :
    rowsSinglePoint ≠ [] ∧
      (process plainHost initialEnv (some rowsSinglePoint)).info.map (·.price)
        = some (JSNum.fin 200) ∧
      (process plainHost initialEnv (some rowsSinglePoint)).info.map (·.change)
        = some (JSNum.fin 0) ∧
      ∃ info latest,
        (process plainHost initialEnv (some rowsSinglePoint)).info = some info ∧
        (process plainHost initialEnv (some rowsSinglePoint)).chartData.getLast? = some latest ∧
        info.price = latest.close :=
  ⟨by decide, by decide!, by decide!,
    (price_and_change plainHost initialEnv rowsSinglePoint (by decide)).imp
      (fun _ h => h.imp (fun _ h2 => ⟨h2.1, h2.2.1, h2.2.2.1⟩))⟩

/-- C2, counterexample: the single row `{close: "abc"}` gives a series of one
point whose `change` is `NaN`, not 0. -/
theorem change_nan_on_single_text_close :
    (process plainHost initialEnv (some rowsCloseText)).chartData.length = 1 ∧
      (process plainHost initialEnv (some rowsCloseText)).info.map (·.change)
        = some JSNum.nan :=
  ⟨by decide!, by decide!⟩


/-! ## C3: change in percent -/

/-- C3 (as amended): for a non-empty input, with `previous` the second-to-last
point (the last one of a single-point series), `change` is `price` minus the
previous close; `changePercent` is `change / previous.close * 100` when the
previous close is neither 0 nor `NaN`, and 0 when it is 0 or `NaN`; the
division is evaluated only with a non-zero divisor. -/
theorem changePercent_guarded (host : Host) (env : Env) (rows : List RawRecord)
    (hrows : rows ≠ []) :
    ∃ info prev,
      (process host env (some rows)).info = some info ∧
      previousPoint (process host env (some rows)).chartData = some prev ∧
      info.change = JSNum.sub info.price prev.close ∧
      (prev.close ≠ JSNum.fin 0 → prev.close ≠ JSNum.nan →
        info.changePercent =
          JSNum.mul (JSNum.div info.change prev.close) (JSNum.fin 100)) ∧
      (prev.close = JSNum.fin 0 ∨ prev.close = JSNum.nan →
        info.changePercent = JSNum.fin 0) ∧
      (info.changePercent ≠ JSNum.fin 0 → prev.close ≠ JSNum.fin 0) := by
  obtain ⟨hne, hinfo⟩ := process_nonempty host env rows hrows
  obtain ⟨latest, hlast⟩ := getLast?_isSome_of_ne_nil _ hne
  obtain ⟨prev, hprev⟩ := previousPoint_isSome_of_ne_nil _ hne
  have hpct := infoOf_changePercent env _ prev hprev
  have hzero : prev.close = JSNum.fin 0 ∨ prev.close = JSNum.nan →
      (infoOf env (process host env (some rows)).chartData).changePercent = JSNum.fin 0 := by
    intro h0
    have hf : ¬ JSNum.truthy prev.close = true := by
      rw [JSNum.truthy_iff]
      rintro ⟨h1, h2⟩
      rcases h0 with h0 | h0
      · exact h1 h0
      · exact h2 h0
    rw [hpct, if_neg hf]
  refine ⟨_, prev, hinfo, hprev, ?_, ?_, hzero, ?_⟩
  · rw [infoOf_price env _ latest hlast]
    exact infoOf_change env _ latest prev hlast hprev
  · intro h0 hn
    rw [hpct, if_pos ((JSNum.truthy_iff _).mpr ⟨h0, hn⟩)]
  · intro hp h0
    exact hp (hzero (Or.inl h0))

/-- C3, witness: on closes 0 then 50 in time order the previous close is 0 and
`changePercent` is 0 (the guard, not a division); on closes 50 then 0 the
previous close is 50 and `changePercent` is -100. -/
theorem changePercent_guarded_witness :
    rowsClose0Then50 ≠ [] ∧
      (process plainHost initialEnv (some rowsClose0Then50)).chartData.map (·.close)
        = [JSNum.fin 0, JSNum.fin 50] ∧
      (process plainHost initialEnv (some rowsClose0Then50)).info.map (·.changePercent)
        = some (JSNum.fin 0) ∧
      ∃ info prev,
        (process plainHost initialEnv (some rowsClose0Then50)).info = some info ∧
        previousPoint (process plainHost initialEnv (some rowsClose0Then50)).chartData
          = some prev ∧
        (prev.close = JSNum.fin 0 ∨ prev.close = JSNum.nan →
          info.changePercent = JSNum.fin 0) :=
  ⟨by decide, by decide!, by decide!,
    (changePercent_guarded plainHost initialEnv rowsClose0Then50 (by decide)).imp
      (fun _ h => h.imp (fun _ h2 => ⟨h2.1, h2.2.1, h2.2.2.2.2.1⟩))⟩

/-- C3, counterexample: on `[{timestamp: 1000, close: "abc"}, {timestamp: 2000,
close: 5}]` the previous close is `NaN`, which is not 0, and `changePercent`
is 0 although `change / previous.close * 100` is `NaN`; and on closes 50 then
0 in time order `changePercent` is -100, not 0. -/
theorem changePercent_zero_on_nan_close :
    ((previousPoint (process plainHost initialEnv (some rowsPrevCloseText)).chartData).map
        (·.close) = some JSNum.nan ∧
      (process plainHost initialEnv (some rowsPrevCloseText)).info.map (·.changePercent)
        = some (JSNum.fin 0) ∧
      (process plainHost initialEnv (some rowsPrevCloseText)).info.map
          (fun info => JSNum.mul (JSNum.div info.change JSNum.nan) (JSNum.fin 100))
        = some JSNum.nan) ∧
    ((process plainHost initialEnv (some rowsClose50Then0)).chartData.map (·.close)
        = [JSNum.fin 50, JSNum.fin 0] ∧
      (process plainHost initialEnv (some rowsClose50Then0)).info.map (·.changePercent)
        = some (JSNum.fin (-100))) :=
  ⟨⟨by decide!, by decide!, by decide!⟩, by decide!, by decide!⟩


/-! ## The order on numbers, `Math.max` and `Math.min` -/

theorem jsLe_refl (x : JSNum) (h : x ≠ JSNum.nan) : JSNum.le x x = true := by
  cases x with
  | fin q => simp [JSNum.le]
  | nan => exact absurd rfl h
  | ninf => rfl
  | pinf => rfl

theorem jsLe_trans {a b c : JSNum} (h1 : JSNum.le a b = true) (h2 : JSNum.le b c = true) :
    JSNum.le a c = true := by
  cases a <;> cases b <;> cases c <;> simp_all [JSNum.le]
  exact le_trans h1 h2

theorem jsLe_antisymm {a b : JSNum} (h1 : JSNum.le a b = true) (h2 : JSNum.le b a = true) :
    a = b := by
  cases a <;> cases b <;> simp_all [JSNum.le]
  exact le_antisymm h1 h2

theorem jsLe_of_lt {a b : JSNum} (h : JSNum.lt a b = true) : JSNum.le a b = true := by
  cases a <;> cases b <;> simp_all [JSNum.le, JSNum.lt]
  exact le_of_lt h

theorem jsLe_of_not_lt {a b : JSNum} (ha : a ≠ JSNum.nan) (hb : b ≠ JSNum.nan)
    (h : ¬ JSNum.lt a b = true) : JSNum.le b a = true := by
  cases a <;> cases b <;> simp_all [JSNum.le, JSNum.lt]

theorem jsLe_ne_nan_left {a b : JSNum} (h : JSNum.le a b = true) : a ≠ JSNum.nan := by
  rintro rfl
  cases b <;> simp [JSNum.le] at h

theorem strictEq_iff_eq {a b : JSNum} (ha : a ≠ JSNum.nan) (hb : b ≠ JSNum.nan) :
    JSNum.strictEq a b = true ↔ a = b := by
  cases a <;> cases b <;> simp_all [JSNum.strictEq]

theorem mathMaxFrom_spec (xs : List JSNum) (hxs : ∀ x ∈ xs, x ≠ JSNum.nan) :
    ∀ h : JSNum, h ≠ JSNum.nan →
      mathMaxFrom h xs ≠ JSNum.nan ∧ (mathMaxFrom h xs = h ∨ mathMaxFrom h xs ∈ xs) ∧
        JSNum.le h (mathMaxFrom h xs) = true ∧
        ∀ x ∈ xs, JSNum.le x (mathMaxFrom h xs) = true := by
  induction xs with
  | nil =>
    intro h hh
    exact ⟨hh, Or.inl rfl, jsLe_refl h hh, fun x hx => absurd hx (List.not_mem_nil x)⟩
  | cons a t ih =>
    intro h hh
    have ha : a ≠ JSNum.nan := hxs a (List.mem_cons_self _ _)
    have ht : ∀ x ∈ t, x ≠ JSNum.nan := fun x hx => hxs x (List.mem_cons_of_mem _ hx)
    rw [mathMaxFrom, if_neg ha]
    by_cases hlt : JSNum.lt h a = true
    · rw [if_pos hlt]
      obtain ⟨r1, r2, r3, r4⟩ := ih ht a ha
      refine ⟨r1, ?_, jsLe_trans (jsLe_of_lt hlt) r3, ?_⟩
      · rcases r2 with r2 | r2
        · exact Or.inr (by rw [r2]; exact List.mem_cons_self _ _)
        · exact Or.inr (List.mem_cons_of_mem _ r2)
      · intro x hx
        rcases List.mem_cons.mp hx with rfl | hx
        · exact r3
        · exact r4 x hx
    · rw [if_neg hlt]
      obtain ⟨r1, r2, r3, r4⟩ := ih ht h hh
      refine ⟨r1, ?_, r3, ?_⟩
      · rcases r2 with r2 | r2
        · exact Or.inl r2
        · exact Or.inr (List.mem_cons_of_mem _ r2)
      · intro x hx
        rcases List.mem_cons.mp hx with rfl | hx
        · exact jsLe_trans (jsLe_of_not_lt hh ha hlt) r3
        · exact r4 x hx

theorem mathMinFrom_spec (xs : List JSNum) (hxs : ∀ x ∈ xs, x ≠ JSNum.nan) :
    ∀ l : JSNum, l ≠ JSNum.nan →
      mathMinFrom l xs ≠ JSNum.nan ∧ (mathMinFrom l xs = l ∨ mathMinFrom l xs ∈ xs) ∧
        JSNum.le (mathMinFrom l xs) l = true ∧
        ∀ x ∈ xs, JSNum.le (mathMinFrom l xs) x = true := by
  induction xs with
  | nil =>
    intro l hl
    exact ⟨hl, Or.inl rfl, jsLe_refl l hl, fun x hx => absurd hx (List.not_mem_nil x)⟩
  | cons a t ih =>
    intro l hl
    have ha : a ≠ JSNum.nan := hxs a (List.mem_cons_self _ _)
    have ht : ∀ x ∈ t, x ≠ JSNum.nan := fun x hx => hxs x (List.mem_cons_of_mem _ hx)
    rw [mathMinFrom, if_neg ha]
    by_cases hlt : JSNum.lt a l = true
    · rw [if_pos hlt]
      obtain ⟨r1, r2, r3, r4⟩ := ih ht a ha
      refine ⟨r1, ?_, jsLe_trans r3 (jsLe_of_lt hlt), ?_⟩
      · rcases r2 with r2 | r2
        · exact Or.inr (by rw [r2]; exact List.mem_cons_self _ _)
        · exact Or.inr (List.mem_cons_of_mem _ r2)
      · intro x hx
        rcases List.mem_cons.mp hx with rfl | hx
        · exact r3
        · exact r4 x hx
    · rw [if_neg hlt]
      obtain ⟨r1, r2, r3, r4⟩ := ih ht l hl
      refine ⟨r1, ?_, r3, ?_⟩
      · rcases r2 with r2 | r2
        · exact Or.inl r2
        · exact Or.inr (List.mem_cons_of_mem _ r2)
      · intro x hx
        rcases List.mem_cons.mp hx with rfl | hx
        · exact jsLe_trans r3 (jsLe_of_not_lt ha hl hlt)
        · exact r4 x hx

theorem mathMax_spec (xs : List JSNum) (hne : xs ≠ []) (hxs : ∀ x ∈ xs, x ≠ JSNum.nan) :
    mathMax xs ≠ JSNum.nan ∧ mathMax xs ∈ xs ∧ ∀ x ∈ xs, JSNum.le x (mathMax xs) = true := by
  obtain ⟨r1, r2, _, r4⟩ := mathMaxFrom_spec xs hxs JSNum.ninf (by decide)
  refine ⟨r1, ?_, r4⟩
  rcases r2 with r2 | r2
  · cases xs with
    | nil => exact absurd rfl hne
    | cons a t =>
      have hle : JSNum.le a (mathMax (a :: t)) = true := r4 a (List.mem_cons_self _ _)
      have hle2 : JSNum.le (mathMax (a :: t)) a = true := by
        have : mathMax (a :: t) = JSNum.ninf := r2
        rw [this]
        cases a <;> first | rfl | exact absurd rfl (hxs _ (List.mem_cons_self _ _))
      have heq : a = mathMax (a :: t) := jsLe_antisymm hle hle2
      rw [← heq]
      exact List.mem_cons_self _ _
  · exact r2

theorem mathMin_spec (xs : List JSNum) (hne : xs ≠ []) (hxs : ∀ x ∈ xs, x ≠ JSNum.nan) :
    mathMin xs ≠ JSNum.nan ∧ mathMin xs ∈ xs ∧ ∀ x ∈ xs, JSNum.le (mathMin xs) x = true := by
  obtain ⟨r1, r2, _, r4⟩ := mathMinFrom_spec xs hxs JSNum.pinf (by decide)
  refine ⟨r1, ?_, r4⟩
  rcases r2 with r2 | r2
  · cases xs with
    | nil => exact absurd rfl hne
    | cons a t =>
      have hle : JSNum.le (mathMin (a :: t)) a = true := r4 a (List.mem_cons_self _ _)
      have hle2 : JSNum.le a (mathMin (a :: t)) = true := by
        have : mathMin (a :: t) = JSNum.pinf := r2
        rw [this]
        cases a <;> first | rfl | exact absurd rfl (hxs _ (List.mem_cons_self _ _))
      have heq : a = mathMin (a :: t) := jsLe_antisymm hle2 hle
      rw [← heq]
      exact List.mem_cons_self _ _
  · exact r2

/-! ## C4: period high and low -/

/-- C4 (as amended): for a non-empty input none of whose points has a `NaN`
close, `periodHigh` is the close of some point and is `>=` every close,
`periodLow` is the close of some point and is `<=` every close, and
`samePriceDomain` holds exactly when `periodHigh` equals `periodLow`, that is
exactly when all points have the same close. -/
theorem period_high_low (host : Host) (env : Env) (rows : List RawRecord)
    (hrows : rows ≠ [])
    (hclose : ∀ p ∈ (process host env (some rows)).chartData, p.close ≠ JSNum.nan) :
    ∃ info,
      (process host env (some rows)).info = some info ∧
      (∃ p ∈ (process host env (some rows)).chartData, p.close = info.periodHigh) ∧
      (∀ p ∈ (process host env (some rows)).chartData,
        JSNum.le p.close info.periodHigh = true) ∧
      (∃ p ∈ (process host env (some rows)).chartData, p.close = info.periodLow) ∧
      (∀ p ∈ (process host env (some rows)).chartData,
        JSNum.le info.periodLow p.close = true) ∧
      (info.samePriceDomain = true ↔ info.periodHigh = info.periodLow) ∧
      (info.samePriceDomain = true ↔
        ∀ p ∈ (process host env (some rows)).chartData,
          ∀ q ∈ (process host env (some rows)).chartData, p.close = q.close) := by
  obtain ⟨hne, hinfo⟩ := process_nonempty host env rows hrows
  generalize (process host env (some rows)).chartData = cd at hne hinfo hclose
  have hpne : cd.map (·.close) ≠ [] := by
    intro h
    exact hne (List.map_eq_nil_iff.mp h)
  have hpnan : ∀ x ∈ cd.map (·.close), x ≠ JSNum.nan := by
    intro x hx
    obtain ⟨p, hp, rfl⟩ := List.mem_map.mp hx
    exact hclose p hp
  obtain ⟨hmax1, hmax2, hmax3⟩ := mathMax_spec _ hpne hpnan
  obtain ⟨hmin1, hmin2, hmin3⟩ := mathMin_spec _ hpne hpnan
  have hhigh : (infoOf env cd).periodHigh = mathMax (cd.map (·.close)) := rfl
  have hlow : (infoOf env cd).periodLow = mathMin (cd.map (·.close)) := rfl
  have hsame : (infoOf env cd).samePriceDomain =
      JSNum.strictEq (mathMax (cd.map (·.close))) (mathMin (cd.map (·.close))) := rfl
  have hiff : (infoOf env cd).samePriceDomain = true ↔
      (infoOf env cd).periodHigh = (infoOf env cd).periodLow := by
    rw [hsame, hhigh, hlow]
    exact strictEq_iff_eq hmax1 hmin1
  refine ⟨_, hinfo, ?_, ?_, ?_, ?_, hiff, ?_⟩
  · obtain ⟨p, hp, hpe⟩ := List.mem_map.mp hmax2
    exact ⟨p, hp, hpe⟩
  · intro p hp
    exact hmax3 _ (List.mem_map_of_mem _ hp)
  · obtain ⟨p, hp, hpe⟩ := List.mem_map.mp hmin2
    exact ⟨p, hp, hpe⟩
  · intro p hp
    exact hmin3 _ (List.mem_map_of_mem _ hp)
  · rw [hiff, hhigh, hlow]
    constructor
    · intro heq p hp q hq
      have h1 : ∀ r ∈ cd, r.close = mathMin (cd.map (·.close)) := by
        intro r hr
        refine jsLe_antisymm ?_ (hmin3 _ (List.mem_map_of_mem _ hr))
        rw [← heq]
        exact hmax3 _ (List.mem_map_of_mem _ hr)
      rw [h1 p hp, h1 q hq]
    · intro hall
      obtain ⟨p, hp, hpe⟩ := List.mem_map.mp hmax2
      obtain ⟨q, hq, hqe⟩ := List.mem_map.mp hmin2
      rw [← hpe, ← hqe]
      exact hall p hp q hq

/-- C4, witness: three points all with close 120 give `periodHigh` and
`periodLow` 120 and `samePriceDomain` true. -/
theorem period_high_low_witness :
    rowsFlat120 ≠ [] ∧
      (process plainHost initialEnv (some rowsFlat120)).info.map
          (fun info => (info.periodHigh, info.periodLow, info.samePriceDomain))
        = some (JSNum.fin 120, JSNum.fin 120, true) ∧
      ∃ info,
        (process plainHost initialEnv (some rowsFlat120)).info = some info ∧
        (info.samePriceDomain = true ↔ info.periodHigh = info.periodLow) :=
  ⟨by decide, by decide!,
    (period_high_low plainHost initialEnv rowsFlat120 (by decide) (by decide!)).imp
      (fun _ h => ⟨h.1, h.2.2.2.2.2.1⟩)⟩

/-- C4, counterexample: on the single row `{close: "abc"}` the close is `NaN`,
`periodHigh` is `NaN`, which is not `>=` the point's close, and
`samePriceDomain` is false although the series has a single point. -/
theorem periodHigh_nan_on_text_close :
    (process plainHost initialEnv (some rowsCloseText)).chartData.map (·.close)
        = [JSNum.nan] ∧
      (process plainHost initialEnv (some rowsCloseText)).info.map
          (fun info => (info.periodHigh, info.periodLow, info.samePriceDomain))
        = some (JSNum.nan, JSNum.nan, false) ∧
      (∀ info ∈ (process plainHost initialEnv (some rowsCloseText)).info,
        ∀ p ∈ (process plainHost initialEnv (some rowsCloseText)).chartData,
          JSNum.le p.close info.periodHigh = false) :=
  ⟨by decide!, by decide!, by decide!⟩


/-! ## C6 and C7: resolution of the numeric fields -/

theorem coalesce_pair (a b : JSVal) :
    (a.coalesce (b.coalesce (JSVal.num (JSNum.fin 0)))).toNumber =
      if a.isNullish = false then a.toNumber
      else if b.isNullish = false then b.toNumber
      else JSNum.fin 0 := by
  cases a <;> cases b <;> simp [JSVal.coalesce, JSVal.isNullish, JSVal.toNumber]

theorem field_resolution (host : Host) (env : Env) (row : RawRecord)
    (f : String × String × (CanonicalPoint → JSNum)) (hf : f ∈ numericFields) :
    f.2.2 (normalizeRow host env row) =
      if (row.get f.1).isNullish = false then (row.get f.1).toNumber
      else if (row.get f.2.1).isNullish = false then (row.get f.2.1).toNumber
      else JSNum.fin 0 := by
  simp only [numericFields, List.mem_cons, List.mem_singleton, List.not_mem_nil, or_false] at hf
  rcases hf with rfl | rfl | rfl | rfl | rfl | rfl | rfl <;> exact coalesce_pair _ _

theorem coalesce_of_namesField (row : RawRecord) (lo hi : String) (v : JSVal)
    (h : NamesField row lo hi v) :
    (row.get lo).coalesce ((row.get hi).coalesce (JSVal.num (JSNum.fin 0))) =
      v.coalesce (JSVal.num (JSNum.fin 0)) := by
  rcases h with ⟨h1, h2⟩ | ⟨h1, h2⟩
  · rw [h1, h2]
    cases v <;> rfl
  · rw [h1, h2]
    rfl

theorem normalizeRow_eq_of_same_values (host : Host) (env : Env) (r1 r2 : RawRecord)
    (vals : String → JSVal)
    (hfields : ∀ f ∈ numericFields,
      NamesField r1 f.1 f.2.1 (vals f.1) ∧ NamesField r2 f.1 f.2.1 (vals f.1))
    (htime : ∀ k ∈ timeKeys, r1.get k = r2.get k) :
    normalizeRow host env r1 = normalizeRow host env r2 := by
  have hc : ∀ f ∈ numericFields,
      (r1.get f.1).coalesce ((r1.get f.2.1).coalesce (JSVal.num (JSNum.fin 0))) =
        (r2.get f.1).coalesce ((r2.get f.2.1).coalesce (JSVal.num (JSNum.fin 0))) := by
    intro f hf
    rw [coalesce_of_namesField _ _ _ _ (hfields f hf).1,
      coalesce_of_namesField _ _ _ _ (hfields f hf).2]
  simp only [numericFields, List.forall_mem_cons, List.not_mem_nil, false_implies,
    implies_true, and_true] at hc
  simp only [timeKeys, List.forall_mem_cons, List.not_mem_nil, false_implies,
    implies_true, and_true] at htime
  obtain ⟨c1, c2, c3, c4, c5, c6, c7⟩ := hc
  obtain ⟨t1, t2, t3, t4⟩ := htime
  simp only [normalizeRow, c1, c2, c3, c4, c5, c6, c7, t1, t2, t3, t4]

/-- C7: each numeric field of a point is the number found under the
lower-case key, otherwise the one under the capitalized alias, otherwise 0;
so two rows that hold the same values, each field named by either alias, and
the same time marker, convert to the same point. -/
theorem alias_resolution (host : Host) (env : Env) :
    (∀ (row : RawRecord) (f : String × String × (CanonicalPoint → JSNum)),
      f ∈ numericFields →
        f.2.2 (normalizeRow host env row) =
          if (row.get f.1).isNullish = false then (row.get f.1).toNumber
          else if (row.get f.2.1).isNullish = false then (row.get f.2.1).toNumber
          else JSNum.fin 0) ∧
    (∀ (r1 r2 : RawRecord) (vals : String → JSVal),
      (∀ f ∈ numericFields,
        NamesField r1 f.1 f.2.1 (vals f.1) ∧ NamesField r2 f.1 f.2.1 (vals f.1)) →
      (∀ k ∈ timeKeys, r1.get k = r2.get k) →
        normalizeRow host env r1 = normalizeRow host env r2) :=
  ⟨field_resolution host env, normalizeRow_eq_of_same_values host env⟩

/-- C7, witness: `{Close: 100, Open: 95}` and `{close: 100, open: 95}` convert
to the same point, with close 100, open 95 and the other numeric fields 0. -/
theorem alias_resolution_witness :
    normalizeRow plainHost initialEnv rowCapitalized =
        normalizeRow plainHost initialEnv rowLowerCase ∧
      (numericFields.map (fun f => f.2.2 (normalizeRow plainHost initialEnv rowCapitalized)))
        = [JSNum.fin 95, JSNum.fin 0, JSNum.fin 0, JSNum.fin 100, JSNum.fin 0, JSNum.fin 0,
            JSNum.fin 0] :=
  ⟨(alias_resolution plainHost initialEnv).2 rowCapitalized rowLowerCase valsCloseOpen
      (by decide) (by decide),
    by decide!⟩

/-- C6 (as amended): the conversion of a row is a total function; a price or
volume field that is missing or null under both of its keys becomes 0, and
one whose value is a string that is not a numeric literal becomes `NaN`. -/
theorem missing_zero_text_nan (host : Host) (env : Env) (row : RawRecord)
    (f : String × String × (CanonicalPoint → JSNum)) (hf : f ∈ priceVolumeFields) :
    ((row.get f.1).isNullish = true → (row.get f.2.1).isNullish = true →
        f.2.2 (normalizeRow host env row) = JSNum.fin 0) ∧
    (∀ s : String, stringToNumber s = JSNum.nan →
      (row.get f.1 = JSVal.str s ∨
        ((row.get f.1).isNullish = true ∧ row.get f.2.1 = JSVal.str s)) →
      f.2.2 (normalizeRow host env row) = JSNum.nan) := by
  have hf2 : f ∈ numericFields := List.mem_of_mem_take hf
  rw [field_resolution host env row f hf2]
  constructor
  · intro h1 h2
    simp [h1, h2]
  · rintro s hs (h | ⟨h1, h2⟩)
    · simp [h, JSVal.isNullish, JSVal.toNumber, hs]
    · rw [if_neg (by rw [h1]; decide), h2]
      simp [JSVal.isNullish, JSVal.toNumber, hs]

/-- C6, witness: in `{Close: 100, Open: 95}` the field `high` is missing under
both keys and becomes 0; in `rowAllText` the field `open` holds `"abc"` and
becomes `NaN`. -/
theorem missing_zero_text_nan_witness :
    (normalizeRow plainHost initialEnv rowCapitalized).high = JSNum.fin 0 ∧
      (normalizeRow plainHost initialEnv rowAllText).open_ = JSNum.nan :=
  ⟨(missing_zero_text_nan plainHost initialEnv rowCapitalized
      ("high", "High", fun p => p.high) (by simp [priceVolumeFields, numericFields])).1
      (by decide) (by decide),
    (missing_zero_text_nan plainHost initialEnv rowAllText
      ("open", "Open", fun p => p.open_) (by simp [priceVolumeFields, numericFields])).2
      "abc" (by decide) (Or.inl (by decide))⟩

/-- C6, counterexample: the row `{open: "abc", High: "n/a", low: "abc",
Close: "--", volume: "abc"}` converts to a point whose open, high, low, close
and volume are all `NaN`, not 0. -/
theorem text_fields_become_nan :
    priceVolumeFields.map (fun f => f.2.2 (normalizeRow plainHost initialEnv rowAllText))
      = [JSNum.nan, JSNum.nan, JSNum.nan, JSNum.nan, JSNum.nan] := by
  decide!

/-! ## C8 and C9: sums over the series -/

theorem orZero_of_ne_nan (x : JSNum) (h : x ≠ JSNum.nan) : JSNum.orZero x = x := by
  cases x with
  | fin q =>
    by_cases hq : q = 0
    · simp [JSNum.orZero, JSNum.truthy, hq]
    · simp [JSNum.orZero, JSNum.truthy, hq]
  | nan => exact absurd rfl h
  | ninf => rfl
  | pinf => rfl

theorem avgVolumeOf_of_ne_nil (vs : List JSNum) (h : vs ≠ []) :
    avgVolumeOf vs = JSNum.div (vs.foldl JSNum.add (JSNum.fin 0)) (JSNum.fin vs.length) := by
  have hlen : vs.length > 0 := List.length_pos.mpr h
  rw [avgVolumeOf, if_pos hlen]

theorem infoOf_totalDividends (env : Env) (l : List CanonicalPoint) :
    (infoOf env l).totalDividends =
      (l.map (fun p => JSNum.orZero p.dividends)).foldl JSNum.add (JSNum.fin 0) := by
  simp only [infoOf, List.foldl_map]

/-- C8 (as amended): for a non-empty input of `n` points, `n` is at least 1,
the division branch of the guard is the one taken, and `avgVolume` is the sum
over all points of the volume, a `NaN` volume counting as 0, divided by `n`;
when no point has a `NaN` volume it is the sum of the volume field divided by
`n`. -/
theorem avgVolume_mean (host : Host) (env : Env) (rows : List RawRecord)
    (hrows : rows ≠ []) :
    ∃ info,
      (process host env (some rows)).info = some info ∧
      1 ≤ (process host env (some rows)).chartData.length ∧
      (process host env (some rows)).chartData.length = rows.length ∧
      info.avgVolume =
        JSNum.div
          (((process host env (some rows)).chartData.map
            (fun p => if p.volume = JSNum.nan then JSNum.fin 0 else p.volume)).foldl
            JSNum.add (JSNum.fin 0))
          (JSNum.fin (process host env (some rows)).chartData.length) ∧
      ((∀ p ∈ (process host env (some rows)).chartData, p.volume ≠ JSNum.nan) →
        info.avgVolume =
          JSNum.div
            (((process host env (some rows)).chartData.map (·.volume)).foldl
              JSNum.add (JSNum.fin 0))
            (JSNum.fin (process host env (some rows)).chartData.length)) := by
  obtain ⟨hne, hinfo⟩ := process_nonempty host env rows hrows
  have hlen : (process host env (some rows)).chartData.length = rows.length := by
    rw [process_chartData]
    exact chartDataOf_length host env rows
  generalize (process host env (some rows)).chartData = cd at hne hinfo hlen
  have hpos : 1 ≤ cd.length := List.length_pos.mpr hne
  have hvne : cd.map (fun p => JSNum.orZero p.volume) ≠ [] := by
    intro h
    exact hne (List.map_eq_nil_iff.mp h)
  have havg : (infoOf env cd).avgVolume =
      JSNum.div ((cd.map (fun p => JSNum.orZero p.volume)).foldl JSNum.add (JSNum.fin 0))
        (JSNum.fin cd.length) := by
    have h0 : (infoOf env cd).avgVolume =
        avgVolumeOf (cd.map (fun p => JSNum.orZero p.volume)) := rfl
    rw [h0, avgVolumeOf_of_ne_nil _ hvne, List.length_map]
  have hmap : ∀ p : CanonicalPoint,
      JSNum.orZero p.volume = if p.volume = JSNum.nan then JSNum.fin 0 else p.volume := by
    intro p
    by_cases h : p.volume = JSNum.nan
    · rw [if_pos h, h]
      rfl
    · rw [if_neg h, orZero_of_ne_nan _ h]
  refine ⟨_, hinfo, hpos, hlen, ?_, ?_⟩
  · rw [havg]
    congr 2
    exact List.map_congr_left (fun p _ => hmap p)
  · intro hnan
    rw [havg]
    congr 2
    exact List.map_congr_left (fun p hp => orZero_of_ne_nan _ (hnan p hp))

/-- C8, witness: the single row `{close: 200, volume: 10}` gives
`avgVolume` 10, the sum 10 of the volume field divided by 1. -/
theorem avgVolume_mean_witness :
    rowsSinglePoint ≠ [] ∧
      (process plainHost initialEnv (some rowsSinglePoint)).info.map (·.avgVolume)
        = some (JSNum.fin 10) ∧
      ∃ info,
        (process plainHost initialEnv (some rowsSinglePoint)).info = some info ∧
        1 ≤ (process plainHost initialEnv (some rowsSinglePoint)).chartData.length ∧
        ((∀ p ∈ (process plainHost initialEnv (some rowsSinglePoint)).chartData,
            p.volume ≠ JSNum.nan) →
          info.avgVolume =
            JSNum.div
              (((process plainHost initialEnv (some rowsSinglePoint)).chartData.map
                (·.volume)).foldl JSNum.add (JSNum.fin 0))
              (JSNum.fin
                (process plainHost initialEnv (some rowsSinglePoint)).chartData.length)) :=
  ⟨by decide, by decide!,
    (avgVolume_mean plainHost initialEnv rowsSinglePoint (by decide)).imp
      (fun _ h => ⟨h.1, h.2.1, h.2.2.2.2⟩)⟩

/-- C8, counterexample: on `[{timestamp: 1, volume: 4}, {timestamp: 2, volume:
"abc"}]` the volumes are 4 and `NaN`, so the sum of the volume field divided
by 2 is `NaN`, while `avgVolume` is 2; and on `[{timestamp: 1}]` the series has
one point and `avgVolume` is 0 through the division, not through the guard
for an empty volume list. -/
theorem avgVolume_skips_nan_and_zero_by_division :
    ((process plainHost initialEnv (some rowsVolumeText)).chartData.map (·.volume)
        = [JSNum.fin 4, JSNum.nan] ∧
      JSNum.div
          (((process plainHost initialEnv (some rowsVolumeText)).chartData.map
            (·.volume)).foldl JSNum.add (JSNum.fin 0))
          (JSNum.fin (process plainHost initialEnv (some rowsVolumeText)).chartData.length)
        = JSNum.nan ∧
      (process plainHost initialEnv (some rowsVolumeText)).info.map (·.avgVolume)
        = some (JSNum.fin 2)) ∧
    ((process plainHost initialEnv (some rowsNoVolume)).chartData.map (·.volume)
        = [JSNum.fin 0] ∧
      (process plainHost initialEnv (some rowsNoVolume)).info.map (·.avgVolume)
        = some (JSNum.fin 0)) :=
  ⟨⟨by decide!, by decide!, by decide!⟩, by decide!, by decide!⟩

/-- C9 (as amended): for a non-empty input, `totalDividends` is the sum over
all points of the dividends with a `NaN` dividends counting as 0; when no
point has a `NaN` dividends it is the sum of the dividends field. -/
theorem totalDividends_sum (host : Host) (env : Env) (rows : List RawRecord)
    (hrows : rows ≠ []) :
    ∃ info,
      (process host env (some rows)).info = some info ∧
      info.totalDividends =
        ((process host env (some rows)).chartData.map
          (fun p => if p.dividends = JSNum.nan then JSNum.fin 0 else p.dividends)).foldl
          JSNum.add (JSNum.fin 0) ∧
      ((∀ p ∈ (process host env (some rows)).chartData, p.dividends ≠ JSNum.nan) →
        info.totalDividends =
          ((process host env (some rows)).chartData.map (·.dividends)).foldl
            JSNum.add (JSNum.fin 0)) := by
  obtain ⟨_, hinfo⟩ := process_nonempty host env rows hrows
  generalize (process host env (some rows)).chartData = cd at hinfo
  have hmap : ∀ p : CanonicalPoint,
      JSNum.orZero p.dividends =
        if p.dividends = JSNum.nan then JSNum.fin 0 else p.dividends := by
    intro p
    by_cases h : p.dividends = JSNum.nan
    · rw [if_pos h, h]
      rfl
    · rw [if_neg h, orZero_of_ne_nan _ h]
  refine ⟨_, hinfo, ?_, ?_⟩
  · rw [infoOf_totalDividends]
    congr 1
    exact List.map_congr_left (fun p _ => hmap p)
  · intro hnan
    rw [infoOf_totalDividends]
    congr 1
    exact List.map_congr_left (fun p hp => orZero_of_ne_nan _ (hnan p hp))

/-- C9, witness: dividends 0, 1.5, 0 and 2 give `totalDividends` 3.5. -/
theorem totalDividends_sum_witness :
    rowsDividends ≠ [] ∧
      (process plainHost initialEnv (some rowsDividends)).info.map (·.totalDividends)
        = some (JSNum.fin (7 / 2)) ∧
      ∃ info,
        (process plainHost initialEnv (some rowsDividends)).info = some info ∧
        ((∀ p ∈ (process plainHost initialEnv (some rowsDividends)).chartData,
            p.dividends ≠ JSNum.nan) →
          info.totalDividends =
            ((process plainHost initialEnv (some rowsDividends)).chartData.map
              (·.dividends)).foldl JSNum.add (JSNum.fin 0)) :=
  ⟨by decide, by decide!,
    (totalDividends_sum plainHost initialEnv rowsDividends (by decide)).imp
      (fun _ h => ⟨h.1, h.2.2⟩)⟩

/-- C9, counterexample: on the single row `{dividends: "abc"}` the point's
dividends is `NaN`, so the sum of the dividends field is `NaN`, while
`totalDividends` is 0. -/
theorem totalDividends_skips_nan :
    (process plainHost initialEnv (some rowsDividendsText)).chartData.map (·.dividends)
        = [JSNum.nan] ∧
      ((process plainHost initialEnv (some rowsDividendsText)).chartData.map
          (·.dividends)).foldl JSNum.add (JSNum.fin 0) = JSNum.nan ∧
      (process plainHost initialEnv (some rowsDividendsText)).info.map (·.totalDividends)
        = some (JSNum.fin 0) :=
  ⟨by decide!, by decide!, by decide!⟩


/-! ## C11: independence of the order of delivery -/

theorem chartDataOf_strictly_sorted (host : Host) (env : Env) (rows : List RawRecord)
    (hvalid : ∀ r ∈ rows, (normalizeRow host env r).timestamp ≠ JSNum.nan)
    (hdistinct : rows.Pairwise
      (fun r s => (normalizeRow host env r).timestamp ≠ (normalizeRow host env s).timestamp)) :
    (chartDataOf host env rows).Pairwise TsBefore := by
  have hfin : ∀ p ∈ rows.map (normalizeRow host env), FiniteTs p := by
    intro p hp
    obtain ⟨r, hr, rfl⟩ := List.mem_map.mp hp
    rcases timestamp_nan_or_fin host env r with h | h
    · exact absurd h (hvalid r hr)
    · exact h
  have hsorted : (chartDataOf host env rows).Pairwise TsLe := arraySort_sorted _ hfin
  have hmap : (rows.map (normalizeRow host env)).Pairwise
      (fun a b => a.timestamp ≠ b.timestamp) := List.pairwise_map.mpr hdistinct
  have hne : (chartDataOf host env rows).Pairwise (fun a b => a.timestamp ≠ b.timestamp) :=
    ((chartDataOf_perm host env rows).pairwise_iff (fun h => Ne.symm h)).mpr hmap
  exact hsorted.and hne

theorem tsBefore_antisymm (a b : CanonicalPoint) (h1 : TsBefore a b) (h2 : TsBefore b a) :
    a = b :=
  absurd (jsLe_antisymm h1.1 h2.1) h1.2

theorem chartDataOf_perm_invariant (host : Host) (env : Env) (rows rows2 : List RawRecord)
    (hvalid : ∀ r ∈ rows, (normalizeRow host env r).timestamp ≠ JSNum.nan)
    (hdistinct : rows.Pairwise
      (fun r s => (normalizeRow host env r).timestamp ≠ (normalizeRow host env s).timestamp))
    (hperm : rows2.Perm rows) :
    chartDataOf host env rows2 = chartDataOf host env rows := by
  have hvalid2 : ∀ r ∈ rows2, (normalizeRow host env r).timestamp ≠ JSNum.nan :=
    fun r hr => hvalid r (hperm.mem_iff.mp hr)
  have hdistinct2 : rows2.Pairwise
      (fun r s => (normalizeRow host env r).timestamp ≠ (normalizeRow host env s).timestamp) :=
    (hperm.pairwise_iff (fun h => Ne.symm h)).mpr hdistinct
  have h1 := chartDataOf_strictly_sorted host env rows hvalid hdistinct
  have h2 := chartDataOf_strictly_sorted host env rows2 hvalid2 hdistinct2
  have hp : (chartDataOf host env rows2).Perm (chartDataOf host env rows) :=
    ((chartDataOf_perm host env rows2).trans (hperm.map _)).trans
      (chartDataOf_perm host env rows).symm
  exact @List.eq_of_perm_of_sorted CanonicalPoint TsBefore ⟨tsBefore_antisymm⟩ _ _ hp h2 h1

theorem process_eq_of_chartDataOf_eq (host : Host) (env : Env) (rows rows2 : List RawRecord)
    (h1 : rows ≠ []) (h2 : rows2 ≠ [])
    (h : chartDataOf host env rows2 = chartDataOf host env rows) :
    process host env (some rows2) = process host env (some rows) := by
  cases rows with
  | nil => exact absurd rfl h1
  | cons r rs =>
    cases rows2 with
    | nil => exact absurd rfl h2
    | cons s ss =>
      simp only [process]
      rw [h]

/-- C11: for a non-empty input whose rows have valid and pairwise distinct
timestamps, `process` returns the same series and the same summary on every
reordering of the rows. -/
theorem process_perm_invariant (host : Host) (env : Env) (rows rows2 : List RawRecord)
    (hrows : rows ≠ [])
    (hvalid : ∀ r ∈ rows, (normalizeRow host env r).timestamp ≠ JSNum.nan)
    (hdistinct : rows.Pairwise
      (fun r s => (normalizeRow host env r).timestamp ≠ (normalizeRow host env s).timestamp))
    (hperm : rows2.Perm rows) :
    (process host env (some rows2)).chartData = (process host env (some rows)).chartData ∧
      (process host env (some rows2)).info = (process host env (some rows)).info := by
  have hrows2 : rows2 ≠ [] := by
    intro h
    rw [h] at hperm
    exact hrows (List.perm_nil.mp hperm.symm)
  have h := process_eq_of_chartDataOf_eq host env rows rows2 hrows hrows2
    (chartDataOf_perm_invariant host env rows rows2 hvalid hdistinct hperm)
  rw [h]
  exact ⟨rfl, rfl⟩

/-- C11, witness: `[{timestamp: 1000}, {timestamp: 2000}]` and the same rows in
the other order give the same series, in the order 1000, 2000, and the same
summary. -/
theorem process_perm_invariant_witness :
    rowsTwoDated ≠ [] ∧ rowsTwoDatedSwapped.Perm rowsTwoDated ∧
      (process plainHost initialEnv (some rowsTwoDatedSwapped)).chartData.map (·.timestamp)
        = [JSNum.fin 1000, JSNum.fin 2000] ∧
      (process plainHost initialEnv (some rowsTwoDatedSwapped)).chartData
          = (process plainHost initialEnv (some rowsTwoDated)).chartData ∧
      (process plainHost initialEnv (some rowsTwoDatedSwapped)).info
          = (process plainHost initialEnv (some rowsTwoDated)).info :=
  ⟨by decide, List.Perm.swap _ _ _, by decide!,
    process_perm_invariant plainHost initialEnv rowsTwoDated rowsTwoDatedSwapped (by decide)
      (by decide!) (by decide!) (List.Perm.swap _ _ _)⟩

end GoldPrice
